import Mathlib

/-!
Verification of `src/bin/translate-strings.mjs` (a jscodeshift codemod that
translates Japanese text embedded in source files to English).

The script is embedded shallowly:

* The syntax tree is modelled as the list of its textual leaves in traversal
  order (`List Node`): string-literal nodes, JSX text nodes, comment nodes
  (line or block), and all other nodes (whose text the pass never touches).
* The OpenAI backend is a parameter `backend : String → Option String`
  (`none` models any failure: timeout, transport error, malformed response).
* Console output and outgoing requests are collected in an `Effects` record.
* `jscodeshift`'s `parse` / `toSource` collaborators are parameters returning
  `Except String` (the error message models `error.message`).
-/

namespace TranslateStrings

/-- Delimiter style of a comment node (`//` line vs `/* */` block). -/
inductive CommentStyle where
  | line
  | block
deriving DecidableEq, Repr

/-- Kind of a textual leaf of the syntax tree.  `other` stands for every node
whose text the codemod never inspects (identifiers, template chunks, ...). -/
inductive NodeKind where
  | stringLiteral
  | jsxText
  | comment (style : CommentStyle)
  | other
deriving DecidableEq, Repr

/-- A textual leaf of the tree: its kind and its current text payload
(the literal's value, the JSX text run, or the comment body). -/
structure Node where
  kind : NodeKind
  value : String
deriving DecidableEq, Repr

/-- The three candidate categories the transform's three `find` loops walk:
`j.StringLiteral`, `j.JSXText`, `j.Comment`. -/
inductive NodeCat where
  | literal
  | jsxText
  | comment
deriving DecidableEq, Repr

/-- Which candidate category a node kind belongs to (`none` for nodes the
codemod never classifies). -/
def catOf : NodeKind → Option NodeCat
  | .stringLiteral => some .literal
  | .jsxText => some .jsxText
  | .comment _ => some .comment
  | .other => none

/-- ECMAScript whitespace (the set `String.prototype.trim` strips):
WhiteSpace (tab, vertical tab, form feed, space, no-break space, BOM, the
Unicode space separators) and LineTerminator (LF, CR, LS, PS). -/
def isJsWhitespace (c : Char) : Bool :=
  c.toNat = 0x09 || c.toNat = 0x0a || c.toNat = 0x0b || c.toNat = 0x0c ||
  c.toNat = 0x0d || c.toNat = 0x20 || c.toNat = 0xa0 || c.toNat = 0x1680 ||
  (0x2000 ≤ c.toNat && c.toNat ≤ 0x200a) || c.toNat = 0x2028 ||
  c.toNat = 0x2029 || c.toNat = 0x202f || c.toNat = 0x205f ||
  c.toNat = 0x3000 || c.toNat = 0xfeff

/-- JavaScript's `text.trim()`: remove leading and trailing whitespace. -/
def jsTrim (s : String) : String :=
  ⟨((s.data.dropWhile isJsWhitespace).reverse.dropWhile isJsWhitespace).reverse⟩

/-- Embedding of `containsJapanese`'s character class
`[　-〿぀-ゟ゠-ヿ＀-ﾟ一-龯㐀-䶿]`. -/
def isJapaneseChar (c : Char) : Bool :=
  (0x3000 ≤ c.toNat && c.toNat ≤ 0x303f) ||
  (0x3040 ≤ c.toNat && c.toNat ≤ 0x309f) ||
  (0x30a0 ≤ c.toNat && c.toNat ≤ 0x30ff) ||
  (0xff00 ≤ c.toNat && c.toNat ≤ 0xff9f) ||
  (0x4e00 ≤ c.toNat && c.toNat ≤ 0x9faf) ||
  (0x3400 ≤ c.toNat && c.toNat ≤ 0x4dbf)

/-- `containsJapanese(text)`: the regex `test` succeeds iff some character of
the text falls in the class. -/
def containsJapanese (text : String) : Bool :=
  text.data.any isJapaneseChar

/-- The text the transform extracts from a node of a given category before the
Japanese test and the translation request: the raw value for string literals
(`path.node.value`), the trimmed value for JSX text and comments
(`path.node.value.trim()` / `path.value.value.trim()`). -/
def payloadFor (cat : NodeCat) (v : String) : String :=
  match cat with
  | .literal => v
  | .jsxText => jsTrim v
  | .comment => jsTrim v

/-- Whether a node enters the given `find` loop's `if (containsJapanese(...))`
branch, i.e. becomes a translation candidate of that category. -/
def isCand (cat : NodeCat) (n : Node) : Bool :=
  decide (catOf n.kind = some cat) && containsJapanese (payloadFor cat n.value)

/-- One translation task: the index of its originating node in the traversal,
the category (its `find` loop), and the text captured for the request. -/
structure Cand where
  idx : Nat
  cat : NodeCat
  payload : String
deriving DecidableEq, Repr

/-- One `find` loop: walk the nodes (starting at traversal index `i`) and
collect a task for each candidate of category `cat`. -/
def findNodes (cat : NodeCat) : Nat → List Node → List Cand
  | _, [] => []
  | i, n :: l =>
    if isCand cat n then
      ⟨i, cat, payloadFor cat n.value⟩ :: findNodes cat (i + 1) l
    else
      findNodes cat (i + 1) l

/-- The Node Classifier: the three `find` loops of `transform` in source
order (string literals, then JSX text, then comments), run on the
pre-mutation tree. -/
def classify (tree : List Node) : List Cand :=
  findNodes .literal 0 tree ++ findNodes .jsxText 0 tree ++ findNodes .comment 0 tree

/-- Observable side effects of a run: texts sent to the backend (`calls`),
`console.log` lines (`logs`), `console.error` lines (`errors`). -/
structure Effects where
  calls : List String
  logs : List String
  errors : List String
deriving DecidableEq, Repr

/-- Sequencing of effects. -/
def Effects.append (a b : Effects) : Effects :=
  ⟨a.calls ++ b.calls, a.logs ++ b.logs, a.errors ++ b.errors⟩

/-- The empty effect. -/
def Effects.empty : Effects := ⟨[], [], []⟩

/-- The dry-run marker returned instead of a translation. -/
def dryRunMarker (text : String) : String :=
  "[DRYRUN] Would translate: \"" ++ text ++ "\""

/-- The dry-run report line logged per candidate. -/
def dryRunLog (fileName text : String) : String :=
  "File: " ++ fileName ++ ", Would translate: \"" ++ text ++ "\""

/-- The diagnostic emitted when a translation request fails. -/
def translationFailedLog (text fileName : String) : String :=
  "Translation failed for text: \"" ++ text ++ "\" in file: \"" ++ fileName ++ "\""

/-- `translateToEnglish(text, isDryRun, fileName)`.  In dry-run mode it logs a
report line and returns the marker, making no request.  Otherwise it issues one
request; on success it returns the response trimmed
(`response.choices[0].message.content.trim()`), on any failure it logs a
diagnostic and returns `text` unchanged (fallback to original text). -/
def translateToEnglish (text : String) (isDryRun : Bool) (fileName : String)
    (backend : String → Option String) : String × Effects :=
  if isDryRun then
    (dryRunMarker text, ⟨[], [dryRunLog fileName text], []⟩)
  else
    match backend text with
    | some r => (jsTrim r, ⟨[text], [], []⟩)
    | none => (text, ⟨[text], [], [translationFailedLog text fileName]⟩)

/-- The replacement text written back into a node for a settled task:
string literals get the translated text as the new literal value
(`j.stringLiteral(translatedText)`), JSX text and comments get one leading and
one trailing padding space (`` ` ${translatedText} ` ``). -/
def writeback (cat : NodeCat) (translatedText : String) : String :=
  match cat with
  | .literal => translatedText
  | .jsxText => " " ++ translatedText ++ " "
  | .comment => " " ++ translatedText ++ " "

/-- Replace the text of the node at traversal index `i`, leaving its kind (and
hence a comment's delimiter style) and every other node untouched. -/
def setValue : List Node → Nat → String → List Node
  | [], _, _ => []
  | n :: l, 0, v => { n with value := v } :: l
  | n :: l, i + 1, v => n :: setValue l i v

/-- Run the collected translation tasks (`await Promise.all`): each task calls
`translateToEnglish` on its captured payload and writes the result back into
its own originating node. -/
def runTasks (isDryRun : Bool) (filePath : String) (backend : String → Option String) :
    List Cand → List Node → List Node × Effects
  | [], tree => (tree, Effects.empty)
  | c :: cs, tree =>
    let out := translateToEnglish c.payload isDryRun filePath backend
    let rest := runTasks isDryRun filePath backend cs (setValue tree c.idx (writeback c.cat out.1))
    (rest.1, Effects.append out.2 rest.2)

/-- The Translation Coordinator: classify the pre-mutation tree once, then run
one task per candidate and write every result back. -/
def applyTranslations (tree : List Node) (isDryRun : Bool) (filePath : String)
    (backend : String → Option String) : List Node × Effects :=
  runTasks isDryRun filePath backend (classify tree) tree

/-- A file submitted to `transform`: its path and original source text. -/
structure FileInfo where
  path : String
  source : String
deriving DecidableEq, Repr

/-- The diagnostic emitted when processing a file fails. -/
def processFailedLog (filePath msg : String) : String :=
  "Failed to process " ++ filePath ++ ": " ++ msg

/-- `transform(fileInfo, api, options)`: parse, translate in place, print.
Any failure of parse or print is caught; the original source is returned and a
diagnostic naming the path and the error message is logged. -/
def transform (fileInfo : FileInfo) (parse : String → Except String (List Node))
    (printTree : List Node → Except String String) (isDryRun : Bool)
    (backend : String → Option String) : String × Effects :=
  match parse fileInfo.source with
  | .error msg => (fileInfo.source, ⟨[], [], [processFailedLog fileInfo.path msg]⟩)
  | .ok root =>
    let done := applyTranslations root isDryRun fileInfo.path backend
    match printTree done.1 with
    | .error msg =>
      (fileInfo.source, Effects.append done.2 ⟨[], [], [processFailedLog fileInfo.path msg]⟩)
    | .ok out => (out, done.2)

/-- `processFile(file, options)` for a file whose content was read as
`content`: run `transform`; in dry-run mode nothing is written back
(the first component is the content written to storage, `none` meaning no
write), otherwise the output is written and a progress line logged. -/
def processFile (file content : String) (parse : String → Except String (List Node))
    (printTree : List Node → Except String String) (isDryRun : Bool)
    (backend : String → Option String) : Option String × Effects :=
  let done := transform ⟨file, content⟩ parse printTree isDryRun backend
  if isDryRun then
    (none, done.2)
  else
    (some done.1, Effects.append done.2 ⟨[], ["Processed " ++ file], []⟩)

/-! ### Basic lemmas about `setValue` -/

theorem length_setValue (l : List Node) (i : Nat) (v : String) :
    (setValue l i v).length = l.length := by
  induction l generalizing i with
  | nil => rfl
  | cons n l ih => cases i <;> simp [setValue, ih]

theorem getElem?_setValue_ne (l : List Node) {i j : Nat} (v : String) (h : i ≠ j) :
    (setValue l i v)[j]? = l[j]? := by
  induction l generalizing i j with
  | nil => rfl
  | cons n l ih =>
    cases i with
    | zero =>
      cases j with
      | zero => exact absurd rfl h
      | succ j => simp [setValue]
    | succ i =>
      cases j with
      | zero => simp [setValue]
      | succ j => simpa [setValue] using ih fun hh => h (by omega)

theorem getElem?_setValue_eq (l : List Node) (i : Nat) (v : String) :
    (setValue l i v)[i]? = l[i]?.map fun n => { n with value := v } := by
  induction l generalizing i with
  | nil => simp [setValue]
  | cons n l ih =>
    cases i with
    | zero => simp [setValue]
    | succ i => simpa [setValue] using ih i

/-! ### Lemmas about `runTasks` -/

theorem runTasks_fst_getElem?_of_forall_ne (isDryRun : Bool) (fp : String)
    (bk : String → Option String) (cs : List Cand) (t : List Node) (i : Nat)
    (h : ∀ c ∈ cs, c.idx ≠ i) :
    ((runTasks isDryRun fp bk cs t).1)[i]? = t[i]? := by
  induction cs generalizing t with
  | nil => rfl
  | cons c cs ih =>
    simp only [runTasks]
    rw [ih _ fun c' hc' => h c' (List.mem_cons_of_mem _ hc')]
    exact getElem?_setValue_ne _ _ (h c (List.mem_cons_self _ _))

theorem runTasks_fst_getElem?_of_mem (isDryRun : Bool) (fp : String)
    (bk : String → Option String) (cs : List Cand) (t : List Node) (c : Cand)
    (hmem : c ∈ cs) (hnd : (cs.map Cand.idx).Nodup) :
    ((runTasks isDryRun fp bk cs t).1)[c.idx]? =
      t[c.idx]?.map fun n =>
        { n with value := writeback c.cat (translateToEnglish c.payload isDryRun fp bk).1 } := by
  induction cs generalizing t with
  | nil => cases hmem
  | cons c0 cs ih =>
    rw [List.map_cons, List.nodup_cons] at hnd
    rcases List.mem_cons.mp hmem with rfl | hmem'
    · simp only [runTasks]
      have htail : ∀ c' ∈ cs, c'.idx ≠ c.idx := by
        intro c' hc' he
        exact hnd.1 (he ▸ List.mem_map_of_mem Cand.idx hc')
      rw [runTasks_fst_getElem?_of_forall_ne _ _ _ _ _ _ htail]
      exact getElem?_setValue_eq _ _ _
    · have hne : c0.idx ≠ c.idx := by
        intro he
        exact hnd.1 (he ▸ List.mem_map_of_mem Cand.idx hmem')
      simp only [runTasks]
      rw [ih _ hmem' hnd.2, getElem?_setValue_ne _ _ hne]

theorem runTasks_calls_of_not_dryRun (fp : String) (bk : String → Option String)
    (cs : List Cand) (t : List Node) :
    (runTasks false fp bk cs t).2.calls = cs.map Cand.payload := by
  induction cs generalizing t with
  | nil => rfl
  | cons c cs ih =>
    simp only [runTasks, Effects.append]
    cases hb : bk c.payload <;> simp [translateToEnglish, hb, ih]

theorem runTasks_effects_of_dryRun (fp : String) (bk : String → Option String)
    (cs : List Cand) (t : List Node) :
    (runTasks true fp bk cs t).2 = ⟨[], cs.map fun c => dryRunLog fp c.payload, []⟩ := by
  induction cs generalizing t with
  | nil => rfl
  | cons c cs ih => simp [runTasks, Effects.append, translateToEnglish, ih]

/-! ### Lemmas about the classifier -/

theorem mem_findNodes_iff (cat : NodeCat) (i : Nat) (l : List Node) (c : Cand) :
    c ∈ findNodes cat i l ↔
      ∃ j n, l[j]? = some n ∧ isCand cat n = true ∧
        c.idx = i + j ∧ c.cat = cat ∧ c.payload = payloadFor cat n.value := by
  induction l generalizing i with
  | nil => simp [findNodes]
  | cons n0 l ih =>
    by_cases h : isCand cat n0
    · simp only [findNodes, if_pos h, List.mem_cons, ih]
      constructor
      · rintro (rfl | ⟨j, n, hj, hc, hidx, hcat, hpay⟩)
        · exact ⟨0, n0, by simp, h, by simp, rfl, rfl⟩
        · exact ⟨j + 1, n, by simpa using hj, hc, by omega, hcat, hpay⟩
      · rintro ⟨j, n, hj, hc, hidx, hcat, hpay⟩
        cases j with
        | zero =>
          left
          obtain rfl : n0 = n := by simpa using hj
          cases c
          simp_all
        | succ j =>
          right
          exact ⟨j, n, by simpa using hj, hc, by omega, hcat, hpay⟩
    · simp only [findNodes, if_neg h, ih]
      constructor
      · rintro ⟨j, n, hj, hc, hidx, hcat, hpay⟩
        exact ⟨j + 1, n, by simpa using hj, hc, by omega, hcat, hpay⟩
      · rintro ⟨j, n, hj, hc, hidx, hcat, hpay⟩
        cases j with
        | zero =>
          obtain rfl : n0 = n := by simpa using hj
          exact absurd hc (by simpa using h)
        | succ j =>
          exact ⟨j, n, by simpa using hj, hc, by omega, hcat, hpay⟩

theorem mem_findNodes_zero_iff (cat : NodeCat) (l : List Node) (c : Cand) :
    c ∈ findNodes cat 0 l ↔
      ∃ n, l[c.idx]? = some n ∧ isCand cat n = true ∧
        c.cat = cat ∧ c.payload = payloadFor cat n.value := by
  rw [mem_findNodes_iff]
  constructor
  · rintro ⟨j, n, hj, hc, hidx, hcat, hpay⟩
    exact ⟨n, by rw [hidx]; simpa using hj, hc, hcat, hpay⟩
  · rintro ⟨n, hj, hc, hcat, hpay⟩
    exact ⟨c.idx, n, hj, hc, by omega, hcat, hpay⟩

theorem nodup_findNodes_idx (cat : NodeCat) (i : Nat) (l : List Node) :
    ((findNodes cat i l).map Cand.idx).Nodup := by
  induction l generalizing i with
  | nil => simp [findNodes]
  | cons n0 l ih =>
    by_cases h : isCand cat n0
    · simp only [findNodes, if_pos h, List.map_cons, List.nodup_cons]
      refine ⟨fun hmem => ?_, ih (i + 1)⟩
      rcases List.mem_map.mp hmem with ⟨c, hc, hidx⟩
      rcases (mem_findNodes_iff cat (i + 1) l c).mp hc with ⟨j, n, hj, hcand, hidx', hcat, hpay⟩
      omega
    · simpa only [findNodes, if_neg h] using ih (i + 1)

theorem isCand_iff (cat : NodeCat) (n : Node) :
    isCand cat n = true ↔
      catOf n.kind = some cat ∧ containsJapanese (payloadFor cat n.value) = true := by
  simp [isCand]

theorem mem_classify_iff (l : List Node) (c : Cand) :
    c ∈ classify l ↔
      ∃ n, l[c.idx]? = some n ∧ isCand c.cat n = true ∧
        c.payload = payloadFor c.cat n.value := by
  simp only [classify, List.mem_append, mem_findNodes_zero_iff]
  constructor
  · rintro ((⟨n, hj, hc, hcat, hpay⟩ | ⟨n, hj, hc, hcat, hpay⟩) | ⟨n, hj, hc, hcat, hpay⟩) <;>
      exact ⟨n, hj, hcat ▸ hc, hcat ▸ hpay⟩
  · rintro ⟨n, hj, hc, hpay⟩
    cases hcc : c.cat with
    | literal => exact Or.inl (Or.inl ⟨n, hj, hcc ▸ hc, rfl, hcc ▸ hpay⟩)
    | jsxText => exact Or.inl (Or.inr ⟨n, hj, hcc ▸ hc, rfl, hcc ▸ hpay⟩)
    | comment => exact Or.inr ⟨n, hj, hcc ▸ hc, rfl, hcc ▸ hpay⟩

theorem idx_mem_findNodes_zero {cat : NodeCat} {l : List Node} {i : Nat}
    (h : i ∈ (findNodes cat 0 l).map Cand.idx) :
    ∃ n, l[i]? = some n ∧ catOf n.kind = some cat := by
  rcases List.mem_map.mp h with ⟨c, hc, rfl⟩
  rcases (mem_findNodes_zero_iff cat l c).mp hc with ⟨n, hj, hcand, hcat, hpay⟩
  exact ⟨n, hj, ((isCand_iff _ _).mp hcand).1⟩

theorem disjoint_findNodes_idx {cat₁ cat₂ : NodeCat} (hne : cat₁ ≠ cat₂) (l : List Node) :
    ((findNodes cat₁ 0 l).map Cand.idx).Disjoint ((findNodes cat₂ 0 l).map Cand.idx) := by
  intro i h₁ h₂
  rcases idx_mem_findNodes_zero h₁ with ⟨n, hj, hc₁⟩
  rcases idx_mem_findNodes_zero h₂ with ⟨n', hj', hc₂⟩
  rw [hj] at hj'
  cases Option.some.inj hj'
  rw [hc₁] at hc₂
  exact hne (Option.some.inj hc₂)

theorem nodup_classify_idx (l : List Node) : ((classify l).map Cand.idx).Nodup := by
  simp only [classify, List.map_append, List.nodup_append, List.disjoint_append_left]
  exact ⟨⟨nodup_findNodes_idx _ _ _, nodup_findNodes_idx _ _ _,
      disjoint_findNodes_idx (by decide) l⟩,
    nodup_findNodes_idx _ _ _,
    disjoint_findNodes_idx (by decide) l, disjoint_findNodes_idx (by decide) l⟩

/-! ### The coordinator as a per-node map -/

/-- Specification-side description of one node's fate (spec §4.4): a candidate
node receives, exactly once, the write-back of its own task's result; every
other node is untouched. -/
def translateNodeSpec (isDryRun : Bool) (fp : String) (bk : String → Option String)
    (n : Node) : Node :=
  match catOf n.kind with
  | none => n
  | some cat =>
    if containsJapanese (payloadFor cat n.value) then
      { n with value := writeback cat (translateToEnglish (payloadFor cat n.value) isDryRun fp bk).1 }
    else n

theorem applyTranslations_fst_eq_map (tree : List Node) (isDryRun : Bool) (fp : String)
    (bk : String → Option String) :
    (applyTranslations tree isDryRun fp bk).1 = tree.map (translateNodeSpec isDryRun fp bk) := by
  apply List.ext_getElem?
  intro i
  rw [List.getElem?_map]
  by_cases hc : ∃ c ∈ classify tree, c.idx = i
  · rcases hc with ⟨c, hc, rfl⟩
    rw [applyTranslations,
      runTasks_fst_getElem?_of_mem _ _ _ _ _ _ hc (nodup_classify_idx tree)]
    rcases (mem_classify_iff _ _).mp hc with ⟨n, hn, hcand, hpay⟩
    rw [hn]
    rcases (isCand_iff _ _).mp hcand with ⟨hcat, hjp⟩
    simp [translateNodeSpec, hcat, hjp, hpay]
  · push_neg at hc
    rw [applyTranslations, runTasks_fst_getElem?_of_forall_ne _ _ _ _ _ _ hc]
    cases ht : tree[i]? with
    | none => simp
    | some n =>
      simp only [Option.map_some']
      rcases hcato : catOf n.kind with _ | cat
      · simp [translateNodeSpec, hcato]
      · by_cases hjp : containsJapanese (payloadFor cat n.value)
        · exact absurd ((mem_classify_iff tree ⟨i, cat, payloadFor cat n.value⟩).mpr
            ⟨n, ht, by simp [isCand, hcato, hjp], rfl⟩) fun hmem => hc _ hmem rfl
        · simp [translateNodeSpec, hcato, hjp]

theorem length_applyTranslations (tree : List Node) (isDryRun : Bool) (fp : String)
    (bk : String → Option String) :
    (applyTranslations tree isDryRun fp bk).1.length = tree.length := by
  rw [applyTranslations_fst_eq_map, List.length_map]

/-! ### Claim theorems -/

/-- C1: for every file, the set of nodes mutated by the Translation Coordinator
is exactly the set of candidate nodes the classifier finds on the pre-mutation
tree: the resulting tree is the pointwise map writing into each candidate node,
exactly once, the write-back of its own task's result, leaving every
non-candidate node untouched; no node carries two tasks (the candidate indices
are pairwise distinct), and every candidate's result lands at its own node. -/
theorem C1_mutated_nodes_are_exactly_candidates
    (tree : List Node) (isDryRun : Bool) (fp : String) (bk : String → Option String) :
    (applyTranslations tree isDryRun fp bk).1 = tree.map (translateNodeSpec isDryRun fp bk) ∧
    ((classify tree).map Cand.idx).Nodup ∧
    (∀ c ∈ classify tree, ∀ n, tree[c.idx]? = some n →
      ((applyTranslations tree isDryRun fp bk).1)[c.idx]? =
        some { n with value := writeback c.cat (translateToEnglish c.payload isDryRun fp bk).1 }) := by
  refine ⟨applyTranslations_fst_eq_map tree isDryRun fp bk, nodup_classify_idx tree, ?_⟩
  intro c hc n hn
  rw [applyTranslations, runTasks_fst_getElem?_of_mem _ _ _ _ _ _ hc (nodup_classify_idx tree),
    hn, Option.map_some']

/-- Witness for C1 at a concrete file: one Japanese string literal is replaced
by its own task's write-back. -/
theorem C1_witness :
    ((applyTranslations [⟨.stringLiteral, "こんにちは"⟩] false "a.ts" fun _ => some "Hello").1)[0]? =
      some ⟨.stringLiteral, "Hello"⟩ :=
  ((C1_mutated_nodes_are_exactly_candidates [⟨.stringLiteral, "こんにちは"⟩] false "a.ts"
      fun _ => some "Hello").2.2 ⟨0, .literal, "こんにちは"⟩ (by decide)
    ⟨.stringLiteral, "こんにちは"⟩ rfl).trans (by decide)

/-- C5: the Node Classifier runs once on the pre-mutation tree and the full
candidate list exists before any translation request: the requests a non-dry
run issues are exactly the payloads of the candidates classified on the
original tree, in classification order, whatever the backend answers. -/
theorem C5_requests_are_premutation_candidates
    (tree : List Node) (fp : String) (bk : String → Option String) :
    (applyTranslations tree false fp bk).2.calls = (classify tree).map Cand.payload :=
  runTasks_calls_of_not_dryRun fp bk (classify tree) tree

/-- The target-script code-point ranges as the spec words them: full-width
punctuation, hiragana, katakana, full-width forms, and the common and extended
ideograph blocks. -/
def inTargetScriptRanges (c : Char) : Prop :=
  (0x3000 ≤ c.toNat ∧ c.toNat ≤ 0x303f) ∨
  (0x3040 ≤ c.toNat ∧ c.toNat ≤ 0x309f) ∨
  (0x30a0 ≤ c.toNat ∧ c.toNat ≤ 0x30ff) ∨
  (0xff00 ≤ c.toNat ∧ c.toNat ≤ 0xff9f) ∨
  (0x4e00 ≤ c.toNat ∧ c.toNat ≤ 0x9faf) ∨
  (0x3400 ≤ c.toNat ∧ c.toNat ≤ 0x4dbf)

theorem isJapaneseChar_iff (c : Char) : isJapaneseChar c = true ↔ inTargetScriptRanges c := by
  simp only [isJapaneseChar, inTargetScriptRanges, Bool.or_eq_true, Bool.and_eq_true,
    decide_eq_true_eq]
  tauto

/-- C7: `containsJapanese` is a pure total predicate holding iff some code
point of its argument lies in the target-script ranges. -/
theorem C7_containsJapanese_iff_target_script (t : String) :
    containsJapanese t = true ↔ ∃ c ∈ t.data, inTargetScriptRanges c := by
  simp only [containsJapanese, List.any_eq_true]
  exact exists_congr fun c => and_congr_right fun _ => isJapaneseChar_iff c

/-- C9: the classifier yields exactly one entry per node matching the Script
Detector for its category (raw value for string literals, trimmed text for JSX
text and comments), never yields a non-matching node, yields no node twice, and
the whole pass leaves every non-matching node's text untouched. -/
theorem C9_classifier_exact
    (tree : List Node) (isDryRun : Bool) (fp : String) (bk : String → Option String) :
    (∀ c, c ∈ classify tree ↔ ∃ n, tree[c.idx]? = some n ∧ isCand c.cat n = true ∧
      c.payload = payloadFor c.cat n.value) ∧
    ((classify tree).map Cand.idx).Nodup ∧
    (∀ (i : Nat) (n : Node), tree[i]? = some n → (∀ cat, isCand cat n = false) →
      ((applyTranslations tree isDryRun fp bk).1)[i]? = some n) := by
  refine ⟨fun c => mem_classify_iff tree c, nodup_classify_idx tree, ?_⟩
  intro i n ht hnone
  rw [applyTranslations_fst_eq_map, List.getElem?_map, ht, Option.map_some']
  congr 1
  rcases hcato : catOf n.kind with _ | cat
  · simp [translateNodeSpec, hcato]
  · have hcand := hnone cat
    rw [isCand, hcato] at hcand
    simp at hcand
    simp [translateNodeSpec, hcato, hcand]

/-- Witness for C9 at a concrete file: a non-matching node is untouched. -/
theorem C9_witness :
    ((applyTranslations [⟨.other, "x"⟩] false "a.ts" fun _ => some "Hello").1)[0]? =
      some ⟨.other, "x"⟩ :=
  (C9_classifier_exact [⟨.other, "x"⟩] false "a.ts" fun _ => some "Hello").2.2 0
    ⟨.other, "x"⟩ rfl fun cat => by cases cat <;> rfl

/-- C3: on any backend failure, `translateToEnglish` catches the failure,
returns the original text unchanged, issues exactly the one request with no
other effect than a diagnostic that embeds both the offending text and the
originating file path. -/
theorem C3_translate_failure_returns_original
    (text fn : String) (bk : String → Option String) (h : bk text = none) :
    translateToEnglish text false fn bk =
      (text, ⟨[text], [], [translationFailedLog text fn]⟩) ∧
    (∃ pre post : String, translationFailedLog text fn = pre ++ text ++ post) ∧
    (∃ pre post : String, translationFailedLog text fn = pre ++ fn ++ post) := by
  refine ⟨by simp [translateToEnglish, h],
    ⟨"Translation failed for text: \"", "\" in file: \"" ++ fn ++ "\"", ?_⟩,
    ⟨"Translation failed for text: \"" ++ text ++ "\" in file: \"", "\"", ?_⟩⟩ <;>
  simp [translationFailedLog, String.append_assoc]

/-- Witness for C3 at a concrete failing call. -/
theorem C3_witness :
    translateToEnglish "エラー" false "a.ts" (fun _ => none) =
      ("エラー", ⟨["エラー"], [], [translationFailedLog "エラー" "a.ts"]⟩) ∧
    (∃ pre post : String, translationFailedLog "エラー" "a.ts" = pre ++ "エラー" ++ post) ∧
    (∃ pre post : String, translationFailedLog "エラー" "a.ts" = pre ++ "a.ts" ++ post) :=
  C3_translate_failure_returns_original "エラー" "a.ts" (fun _ => none) rfl

/-- C4: whenever parsing or printing fails for a file, `transform` returns the
original unmodified source text and logs a diagnostic naming the path and the
failure reason. -/
theorem C4_pipeline_failure_returns_original_source
    (fi : FileInfo) (parse : String → Except String (List Node))
    (printTree : List Node → Except String String) (isDryRun : Bool)
    (bk : String → Option String) :
    (∀ msg, parse fi.source = .error msg →
      transform fi parse printTree isDryRun bk =
        (fi.source, ⟨[], [], [processFailedLog fi.path msg]⟩)) ∧
    (∀ root msg, parse fi.source = .ok root →
      printTree (applyTranslations root isDryRun fi.path bk).1 = .error msg →
      (transform fi parse printTree isDryRun bk).1 = fi.source ∧
      (transform fi parse printTree isDryRun bk).2.errors =
        (applyTranslations root isDryRun fi.path bk).2.errors ++
          [processFailedLog fi.path msg]) := by
  constructor
  · intro msg h
    simp [transform, h]
  · intro root msg hp hpr
    simp [transform, hp, hpr, Effects.append]

/-- Witness for C4: a parse failure and a print failure, each falling back to
the original source. -/
theorem C4_witness :
    transform ⟨"a.ts", "SRC"⟩ (fun _ => .error "parse boom") (fun _ => .ok "") false
        (fun _ => none) =
      ("SRC", ⟨[], [], [processFailedLog "a.ts" "parse boom"]⟩) ∧
    ((transform ⟨"a.ts", "SRC"⟩ (fun _ => .ok []) (fun _ => .error "print boom") false
        (fun _ => none)).1 = "SRC" ∧
      (transform ⟨"a.ts", "SRC"⟩ (fun _ => .ok []) (fun _ => .error "print boom") false
          (fun _ => none)).2.errors =
        (applyTranslations [] false "a.ts" (fun _ => none)).2.errors ++
          [processFailedLog "a.ts" "print boom"]) :=
  ⟨(C4_pipeline_failure_returns_original_source ⟨"a.ts", "SRC"⟩ (fun _ => .error "parse boom")
      (fun _ => .ok "") false (fun _ => none)).1 "parse boom" rfl,
    (C4_pipeline_failure_returns_original_source ⟨"a.ts", "SRC"⟩ (fun _ => .ok [])
      (fun _ => .error "print boom") false (fun _ => none)).2 [] "print boom" rfl rfl⟩

/-- C6: the write-back shape per candidate kind: a string literal receives the
translated text as its new literal value, a JSX text run receives it with
exactly one leading and one trailing padding space, and a comment receives it
with exactly one leading and one trailing padding space while keeping its
delimiter style. -/
theorem C6_writeback_shape_per_kind
    (tree : List Node) (isDryRun : Bool) (fp : String) (bk : String → Option String)
    (i : Nat) (n : Node) (ht : tree[i]? = some n) :
    (n.kind = .stringLiteral → containsJapanese n.value = true →
      ((applyTranslations tree isDryRun fp bk).1)[i]? =
        some ⟨.stringLiteral, (translateToEnglish n.value isDryRun fp bk).1⟩) ∧
    (n.kind = .jsxText → containsJapanese (jsTrim n.value) = true →
      ((applyTranslations tree isDryRun fp bk).1)[i]? =
        some ⟨.jsxText, " " ++ (translateToEnglish (jsTrim n.value) isDryRun fp bk).1 ++ " "⟩) ∧
    (∀ s, n.kind = .comment s → containsJapanese (jsTrim n.value) = true →
      ((applyTranslations tree isDryRun fp bk).1)[i]? =
        some ⟨.comment s, " " ++ (translateToEnglish (jsTrim n.value) isDryRun fp bk).1 ++ " "⟩) := by
  rw [applyTranslations_fst_eq_map, List.getElem?_map, ht, Option.map_some']
  obtain ⟨k, v⟩ := n
  refine ⟨fun hk hjp => ?_, fun hk hjp => ?_, fun s hk hjp => ?_⟩ <;> subst hk <;>
    simp [translateNodeSpec, catOf, payloadFor, writeback, hjp]

/-- Witness for C6: the three write-back shapes at one concrete file. -/
theorem C6_witness :
    ((applyTranslations
        [⟨.stringLiteral, "あ"⟩, ⟨.jsxText, " あ "⟩, ⟨.comment .block, " あ "⟩]
        false "a.ts" fun _ => some "X").1)[0]? = some ⟨.stringLiteral, "X"⟩ ∧
    ((applyTranslations
        [⟨.stringLiteral, "あ"⟩, ⟨.jsxText, " あ "⟩, ⟨.comment .block, " あ "⟩]
        false "a.ts" fun _ => some "X").1)[1]? = some ⟨.jsxText, " X "⟩ ∧
    ((applyTranslations
        [⟨.stringLiteral, "あ"⟩, ⟨.jsxText, " あ "⟩, ⟨.comment .block, " あ "⟩]
        false "a.ts" fun _ => some "X").1)[2]? = some ⟨.comment .block, " X "⟩ :=
  ⟨((C6_writeback_shape_per_kind _ false "a.ts" (fun _ => some "X") 0
      ⟨.stringLiteral, "あ"⟩ rfl).1 rfl (by decide)).trans (by decide),
    ((C6_writeback_shape_per_kind _ false "a.ts" (fun _ => some "X") 1
      ⟨.jsxText, " あ "⟩ rfl).2.1 rfl (by decide)).trans (by decide),
    ((C6_writeback_shape_per_kind _ false "a.ts" (fun _ => some "X") 2
      ⟨.comment .block, " あ "⟩ rfl).2.2 .block rfl (by decide)).trans (by decide)⟩

/-- C2 counterexample: with an always-failing backend the resulting tree is
not always identical to the parsed tree — a comment whose body has no
surrounding spaces gets its fallback text padded with spaces. -/
theorem C2_counterexample :
    (applyTranslations [⟨.comment .line, "エラー"⟩] false "a.ts" fun _ => none).1 ≠
      [⟨.comment .line, "エラー"⟩] := by
  decide

/-- C2 (amended): if every backend call fails, string-literal candidates and
all non-candidate nodes keep their exact original text, and every JSX-text or
comment candidate carries its original trimmed text padded with one leading
and one trailing space; kinds and structure are unchanged. -/
theorem C2_amended_failure_preserves_content
    (tree : List Node) (fp : String) (bk : String → Option String)
    (hfail : ∀ s, bk s = none) :
    (applyTranslations tree false fp bk).1 = tree.map fun n =>
      match catOf n.kind with
      | some .jsxText =>
        if containsJapanese (jsTrim n.value) then
          { n with value := " " ++ jsTrim n.value ++ " " }
        else n
      | some .comment =>
        if containsJapanese (jsTrim n.value) then
          { n with value := " " ++ jsTrim n.value ++ " " }
        else n
      | _ => n := by
  rw [applyTranslations_fst_eq_map]
  apply List.map_congr_left
  intro n _
  rcases hcato : catOf n.kind with _ | cat
  · simp [translateNodeSpec, hcato]
  · cases cat <;>
      by_cases hjp : containsJapanese (payloadFor .literal n.value) <;>
      by_cases hjp' : containsJapanese (jsTrim n.value) <;>
      simp [translateNodeSpec, hcato, translateToEnglish, hfail, writeback, payloadFor,
        hjp, hjp']

/-- Witness for C2 (amended) at a concrete failing run. -/
theorem C2_amended_witness :
    (applyTranslations [⟨.comment .line, "エラー"⟩] false "a.ts" fun _ => none).1 =
      [⟨.comment .line, " エラー "⟩] :=
  (C2_amended_failure_preserves_content [⟨.comment .line, "エラー"⟩] "a.ts"
    (fun _ => none) fun _ => rfl).trans (by decide)

/-- C8 counterexample: the dry-run marker embeds the original text but not the
context label — for the call with file "a.ts" the returned marker does not
contain "a.ts". -/
theorem C8_counterexample :
    ¬ ("a.ts".data <:+:
        (translateToEnglish "こんにちは" true "a.ts" fun _ => none).1.data) := by
  decide

/-- C8 (amended): in dry-run mode `translateToEnglish` performs no external
call and returns a literal marker embedding the original text (the context
label appears only in the emitted report line, not in the marker);
`processFile` performs no write-back; and the run's report carries one line per
candidate node, each line embedding that candidate's text. -/
theorem C8_dryrun_no_call_no_write
    (text fn file content : String) (bk : String → Option String)
    (parse : String → Except String (List Node))
    (printTree : List Node → Except String String) :
    translateToEnglish text true fn bk =
      (dryRunMarker text, ⟨[], [dryRunLog fn text], []⟩) ∧
    (∃ pre post : String, dryRunMarker text = pre ++ text ++ post) ∧
    (processFile file content parse printTree true bk).1 = none ∧
    (∀ root, parse content = .ok root →
      (processFile file content parse printTree true bk).2.logs =
        (classify root).map fun c => dryRunLog file c.payload) ∧
    (∃ pre post : String, dryRunLog fn text = pre ++ text ++ post) := by
  refine ⟨rfl, ⟨"[DRYRUN] Would translate: \"", "\"", ?_⟩, rfl, ?_,
    ⟨"File: " ++ fn ++ ", Would translate: \"", "\"", ?_⟩⟩
  · simp [dryRunMarker, String.append_assoc]
  · intro root hroot
    simp only [processFile, transform, hroot]
    cases hpr : printTree (applyTranslations root true file bk).1 with
    | error msg =>
      simp [hpr, Effects.append, applyTranslations, runTasks_effects_of_dryRun]
    | ok out =>
      simp [hpr, applyTranslations, runTasks_effects_of_dryRun]
  · simp [dryRunLog, String.append_assoc]

/-- Witness for C8 (amended) at a concrete dry run. -/
theorem C8_witness :
    (processFile "a.ts" "SRC" (fun _ => .ok [⟨.stringLiteral, "あ"⟩])
        (fun _ => .ok "OUT") true fun _ => none).2.logs =
      (classify [⟨.stringLiteral, "あ"⟩]).map fun c => dryRunLog "a.ts" c.payload :=
  (C8_dryrun_no_call_no_write "あ" "a.ts" "a.ts" "SRC" (fun _ => none)
    (fun _ => .ok [⟨.stringLiteral, "あ"⟩]) (fun _ => .ok "OUT")).2.2.2.1
    [⟨.stringLiteral, "あ"⟩] rfl

/-- C10: a successful backend response is trimmed before being returned and
written back (never applied raw), and the text sent for a JSX-text or comment
candidate is the node's trimmed payload, not its raw value. -/
theorem C10_trimming_of_request_and_response
    (tree : List Node) (fp : String) (bk : String → Option String) :
    (∀ text fn r, bk text = some r →
      (translateToEnglish text false fn bk).1 = jsTrim r) ∧
    (∀ c ∈ classify tree, ∀ n, tree[c.idx]? = some n →
      c.cat = .jsxText ∨ c.cat = .comment → c.payload = jsTrim n.value) ∧
    (∀ (i : Nat) (n : Node) (r : String), tree[i]? = some n →
      n.kind = .stringLiteral → containsJapanese n.value = true → bk n.value = some r →
      ((applyTranslations tree false fp bk).1)[i]? = some ⟨.stringLiteral, jsTrim r⟩) := by
  refine ⟨fun text fn r h => by simp [translateToEnglish, h], ?_, ?_⟩
  · intro c hc n hn hcat
    rcases (mem_classify_iff tree c).mp hc with ⟨n', hn', hcand, hpay⟩
    rw [hn] at hn'
    cases Option.some.inj hn'
    rcases hcat with h | h <;> rw [hpay, h, payloadFor]
  · intro i n r ht hk hjp hbk
    rw [applyTranslations_fst_eq_map, List.getElem?_map, ht, Option.map_some']
    obtain ⟨k, v⟩ := n
    subst hk
    simp [translateNodeSpec, catOf, payloadFor, writeback, hjp, translateToEnglish, hbk]

/-- Witness for C10 at a concrete run: the padded response is trimmed before
write-back. -/
theorem C10_witness :
    (translateToEnglish "あ" false "a.ts" fun _ => some "  Hello  ").1 = jsTrim "  Hello  " ∧
    (⟨0, .jsxText, "あ"⟩ : Cand).payload = jsTrim " あ " ∧
    ((applyTranslations [⟨.stringLiteral, "あ"⟩] false "a.ts"
        fun _ => some "  Hello  ").1)[0]? = some ⟨.stringLiteral, jsTrim "  Hello  "⟩ :=
  ⟨(C10_trimming_of_request_and_response [] "a.ts" fun _ => some "  Hello  ").1
      "あ" "a.ts" "  Hello  " rfl,
    (C10_trimming_of_request_and_response [⟨.jsxText, " あ "⟩] "a.ts"
        fun _ => some "  Hello  ").2.1 ⟨0, .jsxText, "あ"⟩ (by decide)
      ⟨.jsxText, " あ "⟩ (by decide) (Or.inl rfl),
    (C10_trimming_of_request_and_response [⟨.stringLiteral, "あ"⟩] "a.ts"
        fun _ => some "  Hello  ").2.2 0 ⟨.stringLiteral, "あ"⟩ "  Hello  " rfl rfl
      (by decide) rfl⟩

end TranslateStrings
